import Mathlib

/-!
Verification of the slide-deck merge engine, version store, layout engine and
deck renderer of the `pptx-slides` service, as a shallow embedding of
`api/services/slide_service.py`, `api/core/session_manager.py` and
`api/services/template_builder.py`.

Positions: `merge_slides` formats every slide number with `"{:.1f}".format(float(x))`
and from then on compares the resulting strings (set membership) and their
`float(...)` values (sort key, negation).  On the domain of numbers holding at
most one decimal digit, the formatted string is determined exactly by a sign
bit together with a magnitude in tenths (`"-0.0"` and `"0.0"` are distinct
strings of equal numeric value), formatting is the identity, and `float`
negation flips the sign bit.  `FNum` below is that representation, so FNum
equality is equality of the formatted strings and `toVal` gives the numeric
value (scaled by ten) used for sorting.
-/

/-- A one-decimal-digit Python float as produced by `"{:.1f}".format`:
a sign bit and a magnitude counted in tenths.  Equality of `FNum` values is
exactly equality of the formatted strings. -/
structure FNum where
  neg : Bool
  tenths : ℕ
deriving DecidableEq, Repr

/-- Numeric value of a formatted number, scaled by ten (the scale is irrelevant
for comparisons).  `float("-0.0")` and `float("0.0")` are both zero. -/
def FNum.toVal (f : FNum) : ℤ :=
  if f.neg then -(f.tenths : ℤ) else (f.tenths : ℤ)

/-- Negation: `"{:.1f}".format(-float(n))`: float negation flips the sign bit (including
for zero, giving `"-0.0"`), and formatting is the identity on this domain. -/
def FNum.fneg (f : FNum) : FNum :=
  ⟨!f.neg, f.tenths⟩

/-- The dynamically typed value held by a record's `slide_number` field at the
stages the code passes through: a float (or int) on input, the formatted
string after normalization, an int after renumbering. -/
inductive PyVal where
  | pfloat (f : FNum)
  | pstr (f : FNum)
  | pint (n : ℤ)
deriving DecidableEq, Repr

/-- Embeds `float(v)` for the values that can sit in a `slide_number` field. -/
def PyVal.pyFloat : PyVal → FNum
  | .pfloat f => f
  | .pstr f => f
  | .pint n => ⟨decide (n < 0), 10 * n.natAbs⟩

/-- A slide record: the mutable `slide_number` field plus an opaque payload
standing for all the other fields (`title`, `content`, `narration`), which
`merge_slides` never writes. -/
structure Slide where
  num : PyVal
  payload : ℕ
deriving DecidableEq, Repr

/-- Embeds `slide["slide_number"] = "{:.1f}".format(float(...))`
(lines 192-195 of slide_service.py). -/
def fmtSlide (s : Slide) : Slide :=
  { s with num := PyVal.pstr s.num.pyFloat }

/-- The comparison key of a (formatted) slide: `float(x["slide_number"])`. -/
def skey (s : Slide) : FNum :=
  s.num.pyFloat

/-- The sort relation of `sorted(..., key=lambda x: float(x["slide_number"]))`. -/
def leKey (a b : Slide) : Prop :=
  (skey a).toVal ≤ (skey b).toVal

instance : DecidableRel leKey := fun a b => inferInstanceAs (Decidable (_ ≤ _))

instance : IsTotal Slide leKey := ⟨fun a b => Int.le_total _ _⟩

instance : IsTrans Slide leKey := ⟨fun _ _ _ h h' => le_trans h h'⟩

/-- Lines 192-195: both input lists with every `slide_number` formatted. -/
def fmtList (l : List Slide) : List Slide :=
  l.map fmtSlide

/-- Line 198: `new_numbers = set(s["slide_number"] for s in new_slides)`
(membership in the set is membership in this list). -/
def newNumbers (new : List Slide) : List FNum :=
  (fmtList new).map skey

/-- Line 199: existing slides whose number does not occur among the new
slides' numbers (the replace rule). -/
def replaceFiltered (existing new : List Slide) : List Slide :=
  (fmtList existing).filter (fun s => decide (skey s ∉ newNumbers new))

/-- Lines 202-203: `opposite_existing`, the negations of the numbers of the
existing slides that survived the replace filter. -/
def oppositeExisting (existing new : List Slide) : List FNum :=
  ((replaceFiltered existing new).map skey).map FNum.fneg

/-- Line 206: `opposite_new`, the negations of the new slides' numbers. -/
def oppositeNew (new : List Slide) : List FNum :=
  (newNumbers new).map FNum.fneg

/-- Line 209: `filtered_existing`. -/
def keptExisting (existing new : List Slide) : List Slide :=
  (replaceFiltered existing new).filter (fun s => decide (skey s ∉ oppositeNew new))

/-- Line 210: `filtered_new`. -/
def keptNew (existing new : List Slide) : List Slide :=
  (fmtList new).filter (fun s => decide (skey s ∉ oppositeExisting existing new))

/-- Lines 213-216: the merged list, sorted ascending by
`float(x["slide_number"])`.  Python's `sorted` is a stable comparison sort, so
it is extensionally `List.insertionSort`, which is stable. -/
def mergeSortedSlides (existing new : List Slide) : List Slide :=
  (keptExisting existing new ++ keptNew existing new).insertionSort leKey

/-- Lines 219-220: `for i, slide in enumerate(merged, start=1):
slide["slide_number"] = i`. -/
def renumber (l : List Slide) : List Slide :=
  l.enum.map (fun p => { p.2 with num := PyVal.pint ((p.1 : ℤ) + 1) })

/-- Embeds `merge_slides` (slide_service.py lines 191-222): the returned list. -/
def mergeSlides (existing new : List Slide) : List Slide :=
  renumber (mergeSortedSlides existing new)

/-!
State-passing embedding of the same function.  `merge_slides` mutates the
record dicts it is given: lines 192-195 overwrite every input record's
`slide_number` with the formatted string, and lines 219-220 overwrite the
`slide_number` of the records that reached `merged` — which are the very
dict objects of the input lists — with their new 1-based index.  To track
which input record ends up where, records are tagged with their input index
(existing records `0..|existing|-1`, new records `|existing|..`); tags follow
the records through the filters and the stable sort and never influence any
comparison.  `mergeSlidesState` returns the result list together with the
post-call state of both argument lists.
-/

/-- The sort relation lifted to tagged records (tags are ignored). -/
def tleKey (a b : ℕ × Slide) : Prop :=
  leKey a.2 b.2

instance : DecidableRel tleKey := fun a b => inferInstanceAs (Decidable (_ ≤ _))

instance : IsTotal (ℕ × Slide) tleKey := ⟨fun a b => Int.le_total _ _⟩

instance : IsTrans (ℕ × Slide) tleKey := ⟨fun _ _ _ h h' => le_trans h h'⟩

/-- Tagged version of `keptExisting`: the two filters of lines 199 and 209
applied to the index-tagged formatted existing records. -/
def taggedKeptExisting (existing new : List Slide) : List (ℕ × Slide) :=
  ((fmtList existing).enum.filter (fun p => decide (skey p.2 ∉ newNumbers new))).filter
    (fun p => decide (skey p.2 ∉ oppositeNew new))

/-- Tagged version of `keptNew` (line 210), tags offset by `existing.length`. -/
def taggedKeptNew (existing new : List Slide) : List (ℕ × Slide) :=
  ((fmtList new).enum.map (fun p => (existing.length + p.1, p.2))).filter
    (fun p => decide (skey p.2 ∉ oppositeExisting existing new))

/-- Tagged version of lines 213-220: stable sort then renumber, keeping tags. -/
def taggedResult (existing new : List Slide) : List (ℕ × Slide) :=
  ((taggedKeptExisting existing new ++ taggedKeptNew existing new).insertionSort
      tleKey).enum.map
    (fun q => (q.2.1, { q.2.2 with num := PyVal.pint ((q.1 : ℤ) + 1) }))

/-- Post-call state of the input record with tag `i` whose state after the
formatting pass is `s`: if the record reached `merged`, lines 219-220 have
overwritten its `slide_number` with its new index; otherwise its last write
was the formatting pass. -/
def finalSlide (res : List (ℕ × Slide)) (i : ℕ) (s : Slide) : Slide :=
  match res.find? (fun q => q.1 == i) with
  | some q => { s with num := q.2.num }
  | none => s

/-- Embeds `merge_slides` with its side effects: returns (result, post-call state of
`existing_slides`, post-call state of `new_slides`). -/
def mergeSlidesState (existing new : List Slide) :
    List Slide × List Slide × List Slide :=
  let res := taggedResult existing new
  (res.map Prod.snd,
   (fmtList existing).enum.map (fun p => finalSlide res p.1 p.2),
   (fmtList new).enum.map (fun p => finalSlide res (existing.length + p.1) p.2))

/-!
Embedding of `api/core/session_manager.py`.  A `SessionR` keeps the fields
the claims are about: the current slide list, the snapshot history and the
last-access time (an abstract tick standing for `time.time()`); the remaining
opaque fields (`session_id`, `word_content`, `template_name`, `created_at`)
carry no behavior relevant to the claims.  The store is the `_sessions` dict
as an association list with distinct keys plus the TTL.
-/

/-- One session's data (session_manager.py, class SessionData). -/
structure SessionR where
  slides : List Slide
  history : List (List Slide)
  lastAccessed : ℕ
deriving DecidableEq, Repr

/-- The manager state: the `_sessions` dict and `_ttl`. -/
structure Store where
  sessions : List (String × SessionR)
  ttl : ℕ
deriving DecidableEq, Repr

/-- Embeds `self._sessions.get(session_id)`. -/
def lookupSession (st : Store) (sid : String) : Option SessionR :=
  (st.sessions.find? (fun p => p.1 == sid)).map Prod.snd

/-- Embeds `get_session` (lines 60-67): `None` if the id is absent, else the session
with `last_accessed` refreshed to the current time (`touch`).  Returns the
looked-up session and the updated store.  It never consults the TTL. -/
def getSession (st : Store) (sid : String) (now : ℕ) :
    Option SessionR × Store :=
  match lookupSession st sid with
  | none => (none, st)
  | some s =>
    let s' : SessionR := { s with lastAccessed := now }
    let sessions' := st.sessions.map (fun p => if p.1 == sid then (p.1, s') else p)
    (some s', { st with sessions := sessions' })

/-- One pass of `_cleanup_loop` (lines 102-113): drop the sessions whose idle
time exceeds the TTL.  (`now - last_accessed` on ℕ truncates at zero exactly
like the float subtraction stays below any positive TTL when the session was
touched after `now` was read.) -/
def cleanupSweep (st : Store) (now : ℕ) : Store :=
  { st with sessions := st.sessions.filter (fun p => decide ¬(now - p.2.lastAccessed > st.ttl)) }

/-- Embeds `create_session` (lines 44-58): fresh session whose history holds a
shallow copy of the initial slide list (`[slides.copy()]` — a new list, the
same record objects). -/
def createSession (slides : List Slide) (now : ℕ) : SessionR :=
  { slides := slides, history := [slides], lastAccessed := now }

/-- Embeds `update_slides` (lines 69-77) on a session already in hand: set the
current slides and append a shallow copy to the history. -/
def updateSlides (s : SessionR) (slides : List Slide) (now : ℕ) : SessionR :=
  { s with slides := slides, history := s.history ++ [slides],
           lastAccessed := now }

/-- Embeds `undo` (lines 79-88) on a session already in hand: if more than one
snapshot exists, pop the last and make a shallow copy of the new last
snapshot current; otherwise leave the slides unchanged. -/
def undoOp (s : SessionR) (now : ℕ) : SessionR :=
  if s.history.length > 1 then
    let h := s.history.dropLast
    { s with history := h, slides := h.getLastD [], lastAccessed := now }
  else
    { s with lastAccessed := now }

/-- The `/edit` + `/undo` flow of routers/slides.py on a freshly created
session: `create_session(D)` stores history `[D.copy()]` sharing D's record
objects; the edit route calls `merge_slides(session.slides.copy(), E)` —
the copy is shallow, so the in-place writes of `merge_slides` hit the very
records held by the history snapshot, whose value afterwards is the
`finalExisting` component of `mergeSlidesState`; `update_slides` then commits
the merge result, and `undo` pops it and re-exposes the (mutated) first
snapshot.  Returns the session's current slides after the undo. -/
def undoAfterEdit (d e : List Slide) : List Slide :=
  let s0 := createSession d 0
  let st := mergeSlidesState s0.slides e
  let s1 : SessionR := { slides := st.2.1, history := [st.2.1], lastAccessed := 1 }
  let s2 := updateSlides s1 st.1 2
  let s3 := undoOp s2 3
  s3.slides

/-!
Embedding of the layout engine (`template_builder.py`, `_estimate_text_lines`
lines 188-196 and `_calculate_font_size` lines 199-217).  A text is modeled
as its list of lines — the value of Python's `text.split("\n")` — with each
line a list of characters.  Sizes and heights are exact rationals mirroring
the float arithmetic (the constant `0.028` is exact, `int()` truncates toward
zero, `//` is floor division); a `none` result models an uncaught
`ZeroDivisionError` (which the code raises when `chars_per_line` is `0` and a
non-blank line is counted, or when a size of exactly `0` is visited).
-/

/-- Python `int(q)`: truncation toward zero. -/
def ratTrunc (q : ℚ) : ℤ :=
  if q < 0 then -((-q).floor) else q.floor

/-- Embeds `chars_per_line = int(80 * (16 / current_pt))` (line 209). -/
def pyCharsPerLine (current : ℚ) : ℤ :=
  ratTrunc (80 * (16 / current))

/-- One iteration of the loop of `_estimate_text_lines` (lines 191-195): a
line of only whitespace counts `1`; any other line counts
`max(1, len(line) // chars_per_line + 1)`, which raises `ZeroDivisionError`
(here `none`) when `chars_per_line` is zero. -/
def lineContribution (l : List Char) (cpl : ℤ) : Option ℕ :=
  if l.all (fun c => c.isWhitespace) then some 1
  else if cpl = 0 then none
  else some (max 1 (Int.fdiv (l.length : ℤ) cpl + 1)).toNat

/-- Embeds `_estimate_text_lines` (lines 188-196): the sum of the contributions. -/
def estimateTextLines (text : List (List Char)) (cpl : ℤ) : Option ℕ :=
  match text with
  | [] => some 0
  | l :: ls =>
    match lineContribution l cpl, estimateTextLines ls cpl with
    | some a, some b => some (a + b)
    | _, _ => none

/-- The `while current_pt >= min_pt` loop of `_calculate_font_size`
(lines 208-217), with an explicit iteration budget (the caller passes one
strictly larger than the number of iterations the loop performs, so the `0`
case is never reached): below `min_pt` the loop exits and `min_pt` is
returned; otherwise estimate the height at the current size and return the
size if it fits, else retry one point smaller. -/
def fitLoop (text : List (List Char)) (avail minPt : ℚ) :
    ℕ → ℚ → Option ℚ
  | 0, _ => none
  | n + 1, current =>
    if current < minPt then some minPt
    else if current = 0 then none
    else
      match estimateTextLines text (pyCharsPerLine current) with
      | none => none
      | some lines =>
        if (lines : ℚ) * current * (7 / 250) ≤ avail then some current
        else fitLoop text avail minPt n (current - 1)

/-- Embeds `_calculate_font_size(content_text, available_height_inches,
max_size, min_size)` (lines 199-217).  The loop runs at most `⌊max - min⌋ + 1` times;
the budget `⌊max - min⌋ + 2` additionally covers the final failing loop
test, so the embedding equals the Python loop. -/
def calculateFontSize (text : List (List Char)) (avail maxPt minPt : ℚ) :
    Option ℚ :=
  fitLoop text avail minPt ((maxPt - minPt).floor.toNat + 2) maxPt

/-- The fit test the loop applies at size `q`: the estimated line count is
defined and `estimated_lines * current_pt * 0.028 <= available_height`. -/
def FitsAt (text : List (List Char)) (avail q : ℚ) : Prop :=
  ∃ m, estimateTextLines text (pyCharsPerLine q) = some m ∧
    (m : ℚ) * q * (7 / 250) ≤ avail

/-- Length of the underlying string of a line list: the characters plus one
newline between consecutive lines (`"\n".join`). -/
def textLength (text : List (List Char)) : ℕ :=
  (text.map List.length).sum + (text.length - 1)

/-- Extension order: `t2` extends `t1` when `t2` has at least the lines of `t1`, each line of `t1`
is a prefix of the corresponding line of `t2`, and `t2` may append further
lines.  When `t1` and `t2` are the line lists of strings `s1` and `s2`, this
holds in particular whenever `s1` is a prefix of `s2`. -/
def ExtendsLines (t1 t2 : List (List Char)) : Prop :=
  List.Forall₂ (fun a b => a <+: b) t1 (t2.take t1.length) ∧
    t1.length ≤ t2.length

/-!
Embedding of the deck renderer (`template_builder.py`,
`build_themed_presentation` lines 402-449).  A rendered slide records the
data placed on the canvas that the claims are about: the title slide's texts
and each content slide's texts, badge number and whether an image was placed.
Theme resolution (`get_theme`) only selects colors, which this slide model
does not track, so the theme name is carried but cannot influence the result;
`image_paths.get(...)` and the `Path(image_path).exists()` check are the
`imagePath` map and the `fileOk` predicate.
-/

/-- A slide dict as consumed by the renderer: `.get` of an absent key yields
the per-call default, so every field is optional. -/
structure SlideData where
  slideNumber : Option ℤ
  title : Option String
  content : Option String
  narration : Option String
deriving DecidableEq, Repr

/-- One page of the produced document. -/
inductive RenderedSlide where
  | titleSlide (title subtitle : String)
  | contentSlide (title content : String) (hasImage : Bool) (badge : ℕ)
deriving DecidableEq, Repr

/-- Embeds `build_themed_presentation(slides_data, image_paths, theme_name)`:
`if not slides_data: return prs` yields an empty presentation for both
`None` and `[]`; otherwise the first record becomes the title slide (its
content truncated to 120 characters with an ellipsis as subtitle) and each
remaining record a content slide numbered from 2. -/
def buildThemedPresentation (slidesData : Option (List SlideData))
    (imagePath : Option ℤ → Option String) (fileOk : String → Bool)
    (themeName : Option String) : List RenderedSlide :=
  match slidesData, themeName with
  | none, _ => []
  | some [], _ => []
  | some (first :: rest), _ =>
    let c := first.content.getD ""
    let subtitle := if c.length > 120 then c.take 120 ++ "..." else c
    RenderedSlide.titleSlide (first.title.getD "Presentation") subtitle ::
      rest.enum.map (fun p =>
        let i := p.1 + 2
        let img := imagePath p.2.slideNumber
        RenderedSlide.contentSlide (p.2.title.getD ("Slide " ++ toString i))
          (p.2.content.getD "")
          (match img with
           | none => false
           | some q => (!(q == "")) && fileOk q)
          i)

/-! Helper lemmas about renumbering and the tagged pipeline. -/

theorem renumber_payload (l : List Slide) :
    (renumber l).map Slide.payload = l.map Slide.payload := by
  rw [renumber, List.map_map]
  rw [show (Slide.payload ∘ fun p : ℕ × Slide =>
        ({ p.2 with num := PyVal.pint ((p.1 : ℤ) + 1) } : Slide)) =
      Slide.payload ∘ Prod.snd from rfl]
  rw [← List.map_map, List.enum_map_snd]

theorem renumber_num (l : List Slide) :
    (renumber l).map Slide.num =
      (List.range l.length).map (fun i : ℕ => PyVal.pint ((i : ℤ) + 1)) := by
  rw [renumber, List.map_map, ← List.enum_map_fst l, List.map_map]
  rfl

theorem renumber_length (l : List Slide) : (renumber l).length = l.length := by
  simp [renumber]

theorem fmtList_payload (l : List Slide) :
    (fmtList l).map Slide.payload = l.map Slide.payload := by
  rw [fmtList, List.map_map]
  rfl

theorem map_snd_filter_mem (a : List FNum) (l : List (ℕ × Slide)) :
    (l.filter (fun q => decide (skey q.2 ∉ a))).map Prod.snd =
      (l.map Prod.snd).filter (fun s => decide (skey s ∉ a)) := by
  induction l with
  | nil => rfl
  | cons x l ih =>
    simp only [decide_not] at ih ⊢
    cases hb : decide (skey x.2 ∈ a) with
    | true => simp [List.filter_cons, hb, ih]
    | false => simp [List.filter_cons, hb, ih]

theorem taggedKeptExisting_map_snd (existing new : List Slide) :
    (taggedKeptExisting existing new).map Prod.snd = keptExisting existing new := by
  rw [taggedKeptExisting, keptExisting, replaceFiltered,
    map_snd_filter_mem, map_snd_filter_mem, List.enum_map_snd]

theorem taggedKeptNew_map_snd (existing new : List Slide) :
    (taggedKeptNew existing new).map Prod.snd = keptNew existing new := by
  rw [taggedKeptNew, keptNew, map_snd_filter_mem, List.map_map]
  rw [show Prod.snd ∘ (fun p : ℕ × Slide => (existing.length + p.1, p.2)) =
      (Prod.snd : ℕ × Slide → Slide) from rfl]
  rw [List.enum_map_snd]

theorem sort_map_snd (l : List (ℕ × Slide)) :
    (l.insertionSort tleKey).map Prod.snd = (l.map Prod.snd).insertionSort leKey :=
  List.map_insertionSort tleKey leKey Prod.snd l (fun _ _ _ _ => Iff.rfl)

theorem enum_renumber_snd (L : List (ℕ × Slide)) :
    (L.enum.map (fun q =>
        (q.2.1, ({ q.2.2 with num := PyVal.pint ((q.1 : ℤ) + 1) } : Slide)))).map
      Prod.snd = renumber (L.map Prod.snd) := by
  rw [renumber, List.map_map, List.enum_map, List.map_map]
  rfl

theorem taggedResult_map_snd (existing new : List Slide) :
    (taggedResult existing new).map Prod.snd = mergeSlides existing new := by
  rw [taggedResult, mergeSlides, mergeSortedSlides, enum_renumber_snd, sort_map_snd,
    List.map_append, taggedKeptExisting_map_snd, taggedKeptNew_map_snd]

theorem finalSlide_payload (res : List (ℕ × Slide)) (i : ℕ) (s : Slide) :
    (finalSlide res i s).payload = s.payload := by
  rw [finalSlide]
  split <;> rfl

/-- C1: for every existing deck and every edit set, the merged list is sorted
ascending by the pre-renumber numeric position (the numeric value of the
formatted key, not its string), and after renumbering the `slide_number`
fields are exactly the consecutive integers `1..N` where `N` is the result's
length. -/
theorem mergeSlides_sorted_and_renumbered (existing new : List Slide) :
    List.Pairwise leKey (mergeSortedSlides existing new) ∧
    (mergeSlides existing new).map Slide.num =
      (List.range (mergeSlides existing new).length).map
        (fun i : ℕ => PyVal.pint ((i : ℤ) + 1)) := by
  constructor
  · exact List.sorted_insertionSort leKey _
  · rw [mergeSlides, renumber_num, renumber_length]

/-- C3: the code keeps a delete marker that matches no existing slide.
Merging `existing = [{slide_number: 1, payload 0}]` with the single delete
marker `{slide_number: -2.0, payload 7}` does not leave the deck unchanged:
the marker sorts first and is renumbered into content slide 1, so the result
has two records and contains the marker, while merging without the marker
leaves the one-record deck. -/
theorem mergeSlides_unmatched_delete_marker_kept :
    mergeSlides [⟨PyVal.pint 1, 0⟩] [⟨PyVal.pfloat ⟨true, 20⟩, 7⟩] =
      [⟨PyVal.pint 1, 7⟩, ⟨PyVal.pint 2, 0⟩] ∧
    mergeSlides [⟨PyVal.pint 1, 0⟩] [] = [⟨PyVal.pint 1, 0⟩] := by
  exact ⟨by decide, by decide⟩

/-- C2 counterexample: `merge_slides` is not pure.  Calling it on the
one-record deck `[{slide_number: 2.0, payload 5}]` and an empty edit set
leaves the argument's record with `slide_number` overwritten to the integer
`1`, so the post-call state of the first argument differs from its input
value. -/
theorem mergeSlidesState_mutates_input :
    (mergeSlidesState [⟨PyVal.pfloat ⟨false, 20⟩, 5⟩] []).2.1 ≠
      [⟨PyVal.pfloat ⟨false, 20⟩, 5⟩] := by
  decide

/-- C2 amended: `merge_slides` returns a freshly built list whose value is
the pure merge of its arguments, but it mutates its argument records in
place; the mutation touches only the `slide_number` field, so the other
fields (the payload) of both argument lists are unchanged after the call. -/
theorem mergeSlidesState_mutates_only_numbers (existing new : List Slide) :
    (mergeSlidesState existing new).1 = mergeSlides existing new ∧
    ((mergeSlidesState existing new).2.1).map Slide.payload =
      existing.map Slide.payload ∧
    ((mergeSlidesState existing new).2.2).map Slide.payload =
      new.map Slide.payload := by
  refine ⟨taggedResult_map_snd existing new, ?_, ?_⟩
  · rw [mergeSlidesState]
    rw [List.map_map]
    rw [List.map_congr_left (fun p _ => finalSlide_payload (taggedResult existing new) p.1 p.2)]
    rw [show (fun p : ℕ × Slide => p.2.payload) = Slide.payload ∘ Prod.snd from rfl]
    rw [← List.map_map, List.enum_map_snd, fmtList_payload]
  · rw [mergeSlidesState]
    rw [List.map_map]
    rw [List.map_congr_left
      (fun p _ => finalSlide_payload (taggedResult existing new) (existing.length + p.1) p.2)]
    rw [show (fun p : ℕ × Slide => p.2.payload) = Slide.payload ∘ Prod.snd from rfl]
    rw [← List.map_map, List.enum_map_snd, fmtList_payload]

/-- C4: committing a merge and undoing does not restore the original deck.
For the session created with deck `D = [{1, payload 0}, {2, payload 1}]`,
merging the insertion edit `{1.1, payload 2}`, committing the result and
calling undo leaves the current deck `[{1, payload 0}, {3, payload 1}]`:
the history snapshot shares its record objects with the working deck, and
`merge_slides` renumbered the second record in place to `3`. -/
theorem undoAfterEdit_corrupts_snapshot :
    undoAfterEdit [⟨PyVal.pint 1, 0⟩, ⟨PyVal.pint 2, 1⟩]
        [⟨PyVal.pfloat ⟨false, 11⟩, 2⟩] =
      [⟨PyVal.pint 1, 0⟩, ⟨PyVal.pint 3, 1⟩] ∧
    ([⟨PyVal.pint 1, 0⟩, ⟨PyVal.pint 3, 1⟩] : List Slide) ≠
      [⟨PyVal.pint 1, 0⟩, ⟨PyVal.pint 2, 1⟩] := by
  exact ⟨by decide, by decide⟩

/-! Key arithmetic facts about formatted numbers. -/

theorem FNum.toVal_fneg (k : FNum) : (FNum.fneg k).toVal = -(k.toVal) := by
  cases k with
  | mk neg tenths => cases neg <;> simp [FNum.fneg, FNum.toVal]

theorem FNum.fneg_fneg (k : FNum) : FNum.fneg (FNum.fneg k) = k := by
  cases k with
  | mk neg tenths => cases neg <;> simp [FNum.fneg]

theorem skey_fmtSlide (s : Slide) : skey (fmtSlide s) = s.num.pyFloat := rfl

theorem payload_fmtSlide (s : Slide) : (fmtSlide s).payload = s.payload := rfl

theorem newNumbers_eq (new : List Slide) :
    newNumbers new = new.map (fun s => s.num.pyFloat) := by
  rw [newNumbers, fmtList, List.map_map]
  rfl

/-- Payload-membership view of the merge result: the renumbered result and
the sorted merge carry the same payloads, which are those of the two
filtered lists. -/
theorem mem_payload_mergeSlides {x : ℕ} (existing new : List Slide) :
    x ∈ (mergeSlides existing new).map Slide.payload ↔
      (∃ s ∈ keptExisting existing new, s.payload = x) ∨
      (∃ s ∈ keptNew existing new, s.payload = x) := by
  rw [mergeSlides, renumber_payload, mergeSortedSlides]
  constructor
  · intro hx
    obtain ⟨s, hs, rfl⟩ := List.mem_map.mp hx
    rcases List.mem_append.mp ((List.mem_insertionSort leKey).mp hs) with h | h
    · exact Or.inl ⟨s, h, rfl⟩
    · exact Or.inr ⟨s, h, rfl⟩
  · rintro (⟨s, hs, rfl⟩ | ⟨s, hs, rfl⟩) <;>
      exact List.mem_map.mpr ⟨s, (List.mem_insertionSort leKey).mpr
        (List.mem_append.mpr (by first | exact Or.inl hs | exact Or.inr hs)), rfl⟩

/-- C5: replace.  If a proposed record `r` and an existing record `e` carry
the same position after normalization, and the deck's positions are positive
(as deck positions are), then—identifying records by payload, assumed unique
for `e`—the merge result contains the proposed record's payload and not the
existing record's: the existing record is dropped and the proposed record
takes its place. -/
theorem mergeSlides_replace (existing new : List Slide) (r e : Slide)
    (hr : r ∈ new) (he : e ∈ existing)
    (hkey : r.num.pyFloat = e.num.pyFloat)
    (hpos : ∀ s ∈ existing, 0 < (s.num.pyFloat).toVal)
    (hpayE : ∀ s ∈ existing, s.payload = e.payload → s = e)
    (hpayN : ∀ s ∈ new, s.payload ≠ e.payload) :
    e.payload ∉ (mergeSlides existing new).map Slide.payload ∧
    r.payload ∈ (mergeSlides existing new).map Slide.payload := by
  constructor
  · intro hmem
    rcases (mem_payload_mergeSlides existing new).mp hmem with ⟨s, hs, hpay⟩ | ⟨s, hs, hpay⟩
    · -- a surviving existing record with e's payload must be e, but e was replaced
      obtain ⟨hs1, _⟩ := List.mem_filter.mp hs
      obtain ⟨hs2, hs3⟩ := List.mem_filter.mp hs1
      obtain ⟨t, ht, rfl⟩ := List.mem_map.mp hs2
      have ht_e : t = e := hpayE t ht (by simpa [payload_fmtSlide] using hpay)
      subst ht_e
      have : skey (fmtSlide t) ∈ newNumbers new := by
        rw [skey_fmtSlide, newNumbers_eq, ← hkey]
        exact List.mem_map.mpr ⟨r, hr, rfl⟩
      simp [this] at hs3
    · -- no proposed record carries e's payload
      obtain ⟨hs1, _⟩ := List.mem_filter.mp hs
      obtain ⟨t, ht, rfl⟩ := List.mem_map.mp hs1
      exact hpayN t ht (by simpa [payload_fmtSlide] using hpay)
  · -- the proposed record survives the only filter applied to new slides
    refine (mem_payload_mergeSlides existing new).mpr (Or.inr ⟨fmtSlide r, ?_, rfl⟩)
    refine List.mem_filter.mpr ⟨List.mem_map.mpr ⟨r, hr, rfl⟩, ?_⟩
    simp only [decide_eq_true_eq]
    intro hmem
    rw [oppositeExisting] at hmem
    obtain ⟨k, hk, hkneg⟩ := List.mem_map.mp hmem
    obtain ⟨t, ht, rfl⟩ := List.mem_map.mp hk
    obtain ⟨ht1, _⟩ := List.mem_filter.mp ht
    obtain ⟨u, hu, rfl⟩ := List.mem_map.mp ht1
    have h1 : 0 < (skey (fmtSlide u)).toVal := by
      rw [skey_fmtSlide]; exact hpos u hu
    have h2 : 0 < (skey (fmtSlide r)).toVal := by
      rw [skey_fmtSlide, hkey]; exact hpos e he
    rw [← hkneg, FNum.toVal_fneg] at h2
    omega

/-- C5 witness: replacing position 2 of the deck `[{1, payload 10},
{2, payload 11}]` with the proposed `{2.0, payload 12}` drops payload 11 and
keeps payload 12. -/
theorem mergeSlides_replace_witness :
    (11 : ℕ) ∉ (mergeSlides [⟨PyVal.pint 1, 10⟩, ⟨PyVal.pint 2, 11⟩]
        [⟨PyVal.pfloat ⟨false, 20⟩, 12⟩]).map Slide.payload ∧
    (12 : ℕ) ∈ (mergeSlides [⟨PyVal.pint 1, 10⟩, ⟨PyVal.pint 2, 11⟩]
        [⟨PyVal.pfloat ⟨false, 20⟩, 12⟩]).map Slide.payload :=
  mergeSlides_replace [⟨PyVal.pint 1, 10⟩, ⟨PyVal.pint 2, 11⟩]
    [⟨PyVal.pfloat ⟨false, 20⟩, 12⟩] ⟨PyVal.pfloat ⟨false, 20⟩, 12⟩
    ⟨PyVal.pint 2, 11⟩ (by decide) (by decide) (by decide) (by decide)
    (by decide) (by decide)

/-- C6 counterexample: merging `existing = [{1, payload 0}, {2, payload 1}]`
with `proposed = [{2.0, payload 2}, {-2.0, payload 3}]`.  The proposed
position `-2.0` equals the negation of the existing position `2.0`, yet the
delete marker is not discarded: the record at `2.0` is removed by the replace
rule first, so `-2.0` is no longer the negation of any surviving position and
the marker (payload 3) is renumbered into content slide 1. -/
theorem mergeSlides_marker_survives_replace :
    mergeSlides [⟨PyVal.pint 1, 0⟩, ⟨PyVal.pint 2, 1⟩]
        [⟨PyVal.pfloat ⟨false, 20⟩, 2⟩, ⟨PyVal.pfloat ⟨true, 20⟩, 3⟩] =
      [⟨PyVal.pint 1, 3⟩, ⟨PyVal.pint 2, 0⟩, ⟨PyVal.pint 3, 2⟩] := by
  decide

/-- C6 amended: delete.  If a proposed record `m` carries the negation of an
existing record `e`'s position, and that position is not itself among the
proposed positions (so `e` is not simultaneously replaced — replace takes
precedence), then `e` is removed from the result, the marker `m` is
discarded, and the surviving existing records keep their original relative
order in the renumbered result (records identified by payload, assumed
unique for `e` and `m`; the deck is sorted by position, as decks at rest
are). -/
theorem mergeSlides_delete (existing new : List Slide) (m e : Slide)
    (hm : m ∈ new) (he : e ∈ existing)
    (hkey : m.num.pyFloat = FNum.fneg e.num.pyFloat)
    (hnorepl : ∀ s ∈ new, s.num.pyFloat ≠ e.num.pyFloat)
    (hsorted : existing.Pairwise
      (fun a b => (a.num.pyFloat).toVal ≤ (b.num.pyFloat).toVal))
    (hpayE : ∀ s ∈ existing, s.payload = e.payload → s = e)
    (hpayNE : ∀ s ∈ new, s.payload ≠ e.payload)
    (hpayM : ∀ s ∈ new, s.payload = m.payload → s = m)
    (hpayEM : ∀ s ∈ existing, s.payload ≠ m.payload) :
    e.payload ∉ (mergeSlides existing new).map Slide.payload ∧
    m.payload ∉ (mergeSlides existing new).map Slide.payload ∧
    List.Sublist ((keptExisting existing new).map Slide.payload)
      ((mergeSlides existing new).map Slide.payload) := by
  have he_repl : fmtSlide e ∈ replaceFiltered existing new := by
    refine List.mem_filter.mpr ⟨List.mem_map.mpr ⟨e, he, rfl⟩, ?_⟩
    simp only [decide_eq_true_eq, skey_fmtSlide, newNumbers_eq]
    intro hmem
    obtain ⟨t, ht, htk⟩ := List.mem_map.mp hmem
    exact hnorepl t ht htk
  refine ⟨?_, ?_, ?_⟩
  · intro hmem
    rcases (mem_payload_mergeSlides existing new).mp hmem with ⟨s, hs, hpay⟩ | ⟨s, hs, hpay⟩
    · -- any record with e's payload is e, and e's position is in opposite_new
      obtain ⟨hs1, hs4⟩ := List.mem_filter.mp hs
      obtain ⟨hs2, _⟩ := List.mem_filter.mp hs1
      obtain ⟨t, ht, rfl⟩ := List.mem_map.mp hs2
      have ht_e : t = e := hpayE t ht (by simpa [payload_fmtSlide] using hpay)
      subst ht_e
      have : skey (fmtSlide t) ∈ oppositeNew new := by
        rw [skey_fmtSlide, oppositeNew, newNumbers_eq]
        refine List.mem_map.mpr ⟨m.num.pyFloat, List.mem_map.mpr ⟨m, hm, rfl⟩, ?_⟩
        rw [hkey, FNum.fneg_fneg]
      simp [this] at hs4
    · obtain ⟨hs1, _⟩ := List.mem_filter.mp hs
      obtain ⟨t, ht, rfl⟩ := List.mem_map.mp hs1
      exact hpayNE t ht (by simpa [payload_fmtSlide] using hpay)
  · intro hmem
    rcases (mem_payload_mergeSlides existing new).mp hmem with ⟨s, hs, hpay⟩ | ⟨s, hs, hpay⟩
    · obtain ⟨hs1, _⟩ := List.mem_filter.mp hs
      obtain ⟨hs2, _⟩ := List.mem_filter.mp hs1
      obtain ⟨t, ht, rfl⟩ := List.mem_map.mp hs2
      exact hpayEM t ht (by simpa [payload_fmtSlide] using hpay)
    · -- any record with m's payload is m, and m's position is in opposite_existing
      obtain ⟨hs1, hs3⟩ := List.mem_filter.mp hs
      obtain ⟨t, ht, rfl⟩ := List.mem_map.mp hs1
      have ht_m : t = m := hpayM t ht (by simpa [payload_fmtSlide] using hpay)
      subst ht_m
      have : skey (fmtSlide t) ∈ oppositeExisting existing new := by
        rw [skey_fmtSlide, oppositeExisting, hkey]
        exact List.mem_map.mpr ⟨skey (fmtSlide e),
          List.mem_map.mpr ⟨fmtSlide e, he_repl, rfl⟩, by rw [skey_fmtSlide]⟩
      simp [this] at hs3
  · -- stability: the survivors are a sorted sublist of the sort's input
    rw [mergeSlides, renumber_payload, mergeSortedSlides]
    refine List.Sublist.map Slide.payload ?_
    refine List.sublist_insertionSort ?_ (List.sublist_append_left _ _)
    have h1 : List.Pairwise leKey (fmtList existing) := by
      rw [fmtList]
      exact (List.pairwise_map).mpr hsorted
    exact (h1.filter _).filter _

/-- C6 witness: deleting position 2 of the deck `[{1, payload 20},
{2, payload 21}, {3, payload 22}]` with the single marker `{-2.0, payload
23}` removes payload 21, discards the marker, and keeps the survivors in
order. -/
theorem mergeSlides_delete_witness :
    (21 : ℕ) ∉ (mergeSlides [⟨PyVal.pint 1, 20⟩, ⟨PyVal.pint 2, 21⟩, ⟨PyVal.pint 3, 22⟩]
        [⟨PyVal.pfloat ⟨true, 20⟩, 23⟩]).map Slide.payload ∧
    (23 : ℕ) ∉ (mergeSlides [⟨PyVal.pint 1, 20⟩, ⟨PyVal.pint 2, 21⟩, ⟨PyVal.pint 3, 22⟩]
        [⟨PyVal.pfloat ⟨true, 20⟩, 23⟩]).map Slide.payload ∧
    List.Sublist ((keptExisting [⟨PyVal.pint 1, 20⟩, ⟨PyVal.pint 2, 21⟩, ⟨PyVal.pint 3, 22⟩]
        [⟨PyVal.pfloat ⟨true, 20⟩, 23⟩]).map Slide.payload)
      ((mergeSlides [⟨PyVal.pint 1, 20⟩, ⟨PyVal.pint 2, 21⟩, ⟨PyVal.pint 3, 22⟩]
        [⟨PyVal.pfloat ⟨true, 20⟩, 23⟩]).map Slide.payload) :=
  mergeSlides_delete [⟨PyVal.pint 1, 20⟩, ⟨PyVal.pint 2, 21⟩, ⟨PyVal.pint 3, 22⟩]
    [⟨PyVal.pfloat ⟨true, 20⟩, 23⟩] ⟨PyVal.pfloat ⟨true, 20⟩, 23⟩ ⟨PyVal.pint 2, 21⟩
    (by decide) (by decide) (by decide) (by decide) (by decide) (by decide)
    (by decide) (by decide) (by decide)

/-- Association lists with distinct keys (a Python dict) hold at most one
entry per key. -/
theorem nodup_keys_eq {l : List (String × SessionR)}
    (h : (l.map Prod.fst).Nodup) {p q : String × SessionR}
    (hp : p ∈ l) (hq : q ∈ l) (hpq : p.1 = q.1) : p = q := by
  induction l with
  | nil => cases hp
  | cons a l ih =>
    rw [List.map_cons, List.nodup_cons] at h
    rcases List.mem_cons.mp hp with rfl | hp' <;>
      rcases List.mem_cons.mp hq with rfl | hq'
    · rfl
    · refine absurd (List.mem_map.mpr ⟨q, hq', rfl⟩ : q.1 ∈ l.map Prod.fst) ?_
      rw [← hpq]
      exact h.1
    · refine absurd (List.mem_map.mpr ⟨p, hp', rfl⟩ : p.1 ∈ l.map Prod.fst) ?_
      rw [hpq]
      exact h.1
    · exact ih h.2 hp' hq'

/-- C9 counterexample: a session idle far beyond the TTL is still returned by
`get_session` (which never consults the TTL), until the sweep removes it.
Here the store holds one session last touched at time 0 with TTL 3600, and a
lookup at time 1000000 succeeds — and even refreshes the session. -/
theorem getSession_returns_expired :
    (1000000 : ℕ) - 0 > 3600 ∧
    (getSession ⟨[("s", ⟨[], [[]], 0⟩)], 3600⟩ "s" 1000000).1 =
      some ⟨[], [[]], 1000000⟩ := by
  exact ⟨by decide, by decide⟩

/-- C9 amended: a lookup by a sessionId not present in the store returns
`None` (and no lookup raises — the embedding is total); a session idle beyond
the TTL remains visible only until the periodic sweep runs: after a sweep at
the current time, looking it up returns `None`. -/
theorem getSession_not_found_spec (st : Store) (sid : String) (now : ℕ)
    (hnd : (st.sessions.map Prod.fst).Nodup) :
    ((∀ p ∈ st.sessions, p.1 ≠ sid) → (getSession st sid now).1 = none) ∧
    (∀ s, lookupSession st sid = some s → now - s.lastAccessed > st.ttl →
      lookupSession (cleanupSweep st now) sid = none) := by
  constructor
  · intro habs
    have hfind : st.sessions.find? (fun p => p.1 == sid) = none :=
      List.find?_eq_none.mpr (fun x hx => by
        simpa using habs x hx)
    rw [getSession, lookupSession, hfind]
    rfl
  · intro s hlook hexp
    obtain ⟨q, hfq⟩ : ∃ q, st.sessions.find? (fun p => p.1 == sid) = some q := by
      rw [lookupSession] at hlook
      cases hf : st.sessions.find? (fun p => p.1 == sid) with
      | none => rw [hf] at hlook; cases hlook
      | some q => exact ⟨q, rfl⟩
    have hq_mem : q ∈ st.sessions := List.mem_of_find?_eq_some hfq
    have hq_key : q.1 = sid := by simpa using List.find?_some hfq
    have hq_val : q.2 = s := by
      rw [lookupSession, hfq] at hlook
      simpa using hlook
    by_contra hne
    obtain ⟨q', hfq'⟩ :
        ∃ q', (cleanupSweep st now).sessions.find? (fun p => p.1 == sid) = some q' := by
      rw [lookupSession] at hne
      cases hf : (cleanupSweep st now).sessions.find? (fun p => p.1 == sid) with
      | none => rw [hf] at hne; exact absurd rfl hne
      | some q' => exact ⟨q', rfl⟩
    have hq'_mem_f : q' ∈ (cleanupSweep st now).sessions :=
      List.mem_of_find?_eq_some hfq'
    have hq'_key : q'.1 = sid := by simpa using List.find?_some hfq'
    have hq'_mem : q' ∈ st.sessions := by
      rw [cleanupSweep] at hq'_mem_f
      exact List.mem_of_mem_filter hq'_mem_f
    have hq'_pred := List.of_mem_filter (by rw [cleanupSweep] at hq'_mem_f; exact hq'_mem_f)
    have : q' = q := nodup_keys_eq hnd hq'_mem hq_mem (by rw [hq'_key, hq_key])
    subst this
    rw [hq_val] at hq'_pred
    simp only [decide_eq_true_eq] at hq'_pred
    exact hq'_pred hexp

/-- C9 witness: in the one-session store holding key "a", looking up the
absent key "b" yields `None`, and the sweep clause holds vacuously. -/
theorem getSession_not_found_spec_witness :
    ((∀ p ∈ (⟨[("a", ⟨[], [[]], 0⟩)], 3600⟩ : Store).sessions, p.1 ≠ "b") →
      (getSession ⟨[("a", ⟨[], [[]], 0⟩)], 3600⟩ "b" 5).1 = none) ∧
    (∀ s, lookupSession ⟨[("a", ⟨[], [[]], 0⟩)], 3600⟩ "b" = some s →
      5 - s.lastAccessed > (3600 : ℕ) →
      lookupSession (cleanupSweep ⟨[("a", ⟨[], [[]], 0⟩)], 3600⟩ 5) "b" = none) :=
  getSession_not_found_spec ⟨[("a", ⟨[], [[]], 0⟩)], 3600⟩ "b" 5 (by decide)

/-! Properties of the line estimator. -/

theorem lineContribution_pos {l : List Char} {cpl : ℤ} {a : ℕ}
    (h : lineContribution l cpl = some a) : 1 ≤ a := by
  rw [lineContribution] at h
  split_ifs at h with h1 h2
  · cases h
    exact le_refl 1
  · cases h
    have hm : (1 : ℤ) ≤ max 1 (Int.fdiv (l.length : ℤ) cpl + 1) := le_max_left _ _
    omega

theorem lineContribution_some (l : List Char) {cpl : ℤ} (h : cpl ≠ 0) :
    ∃ a, lineContribution l cpl = some a := by
  rw [lineContribution]
  split_ifs <;> exact ⟨_, rfl⟩

theorem estimateTextLines_some (text : List (List Char)) {cpl : ℤ} (h : cpl ≠ 0) :
    ∃ m, estimateTextLines text cpl = some m := by
  induction text with
  | nil => exact ⟨0, rfl⟩
  | cons l ls ih =>
    obtain ⟨a, ha⟩ := lineContribution_some l h
    obtain ⟨m, hm⟩ := ih
    exact ⟨a + m, by rw [estimateTextLines, ha, hm]⟩

theorem estimateTextLines_append (x y : List (List Char)) (cpl : ℤ) {a b : ℕ}
    (hx : estimateTextLines x cpl = some a) (hy : estimateTextLines y cpl = some b) :
    estimateTextLines (x ++ y) cpl = some (a + b) := by
  induction x generalizing a with
  | nil =>
    rw [estimateTextLines] at hx
    cases hx
    simpa using hy
  | cons l ls ih =>
    rw [estimateTextLines] at hx
    cases hc : lineContribution l cpl with
    | none => rw [hc] at hx; cases hx
    | some c =>
      rw [hc] at hx
      cases he : estimateTextLines ls cpl with
      | none => rw [he] at hx; cases hx
      | some m =>
        rw [he] at hx
        cases hx
        rw [List.cons_append, estimateTextLines, hc, ih he]
        rw [Option.some_inj]
        omega

theorem lineContribution_mono {cpl : ℤ} (hcpl : cpl ≠ 0) {l1 l2 : List Char}
    (h : l1 <+: l2) {a b : ℕ}
    (ha : lineContribution l1 cpl = some a) (hb : lineContribution l2 cpl = some b) :
    a ≤ b := by
  by_cases hbl : l1.all (fun c => c.isWhitespace) = true
  · rw [lineContribution, if_pos hbl] at ha
    cases ha
    exact lineContribution_pos hb
  · have hbl2 : ¬(l2.all (fun c => c.isWhitespace) = true) := by
      intro hall
      exact hbl (List.all_eq_true.mpr
        (fun c hc => List.all_eq_true.mp hall c (h.sublist.subset hc)))
    rw [lineContribution, if_neg hbl, if_neg hcpl] at ha
    rw [lineContribution, if_neg hbl2, if_neg hcpl] at hb
    cases ha
    cases hb
    have hlen : (l1.length : ℤ) ≤ (l2.length : ℤ) := by
      exact_mod_cast h.length_le
    rcases lt_or_gt_of_ne hcpl with hneg | hpos
    · -- negative divisor: both contributions collapse to 1
      have h1 : Int.fdiv (l1.length : ℤ) cpl ≤ 0 :=
        Int.fdiv_nonpos (by positivity) (le_of_lt hneg)
      have h2 : Int.fdiv (l2.length : ℤ) cpl ≤ 0 :=
        Int.fdiv_nonpos (by positivity) (le_of_lt hneg)
      omega
    · have hmono : Int.fdiv (l1.length : ℤ) cpl ≤ Int.fdiv (l2.length : ℤ) cpl := by
        rw [Int.fdiv_eq_ediv _ (by omega), Int.fdiv_eq_ediv _ (by omega)]
        exact Int.ediv_le_ediv hpos hlen
      omega

theorem estimate_forall₂_mono {cpl : ℤ} (hcpl : cpl ≠ 0)
    {t1 t2 : List (List Char)} (h : List.Forall₂ (fun x y => x <+: y) t1 t2) :
    ∀ {a b : ℕ}, estimateTextLines t1 cpl = some a →
      estimateTextLines t2 cpl = some b → a ≤ b := by
  induction h with
  | nil =>
    intro a b ha hb
    rw [estimateTextLines] at ha hb
    cases ha
    cases hb
    exact le_refl 0
  | cons hpre hrest ih =>
    intro a b ha hb
    rw [estimateTextLines] at ha hb
    rcases hc1 : lineContribution _ cpl with _ | c1 <;> rw [hc1] at ha
    · cases ha
    rcases he1 : estimateTextLines _ cpl with _ | m1 <;> rw [he1] at ha
    · cases ha
    rcases hc2 : lineContribution _ cpl with _ | c2 <;> rw [hc2] at hb
    · cases hb
    rcases he2 : estimateTextLines _ cpl with _ | m2 <;> rw [he2] at hb
    · cases hb
    cases ha
    cases hb
    have := lineContribution_mono hcpl hpre hc1 hc2
    have := ih he1 he2
    omega

theorem estimate_mono {cpl : ℤ} (hcpl : cpl ≠ 0) {t1 t2 : List (List Char)}
    (hext : ExtendsLines t1 t2) {a b : ℕ}
    (ha : estimateTextLines t1 cpl = some a)
    (hb : estimateTextLines t2 cpl = some b) : a ≤ b := by
  obtain ⟨hfor, _⟩ := hext
  obtain ⟨a', ha'⟩ := estimateTextLines_some (t2.take t1.length) hcpl
  obtain ⟨b', hb'⟩ := estimateTextLines_some (t2.drop t1.length) hcpl
  have hsplit : estimateTextLines t2 cpl = some (a' + b') := by
    rw [← List.take_append_drop t1.length t2]
    exact estimateTextLines_append _ _ cpl ha' hb'
  rw [hb] at hsplit
  have h1 : a ≤ a' := estimate_forall₂_mono hcpl hfor ha ha'
  have h2 : b = a' + b' := by
    cases hsplit
    rfl
  omega

/-! Properties of the font-size loop. -/

theorem pyCharsPerLine_pos {current : ℚ} (h0 : 0 < current) (h1 : current ≤ 1280) :
    1 ≤ pyCharsPerLine current := by
  have hq : (1 : ℚ) ≤ 80 * (16 / current) := by
    rw [show (80 : ℚ) * (16 / current) = 1280 / current from by ring]
    exact (one_le_div h0).mpr h1
  have hq0 : ¬(80 * (16 / current) < (0 : ℚ)) := by linarith
  rw [pyCharsPerLine, ratTrunc, if_neg hq0]
  show (1 : ℤ) ≤ ⌊(80 : ℚ) * (16 / current)⌋
  exact Int.le_floor.mpr (by exact_mod_cast hq)


theorem fitLoop_bounds (text : List (List Char)) (avail minPt : ℚ) :
    ∀ (n : ℕ) (current s : ℚ),
      fitLoop text avail minPt n current = some s →
      minPt ≤ s ∧ s ≤ max current minPt := by
  intro n
  induction n with
  | zero => intro current s h; cases h
  | succ n ih =>
    intro current s h
    rw [fitLoop] at h
    split_ifs at h with hlt hz
    · cases h
      exact ⟨le_refl _, le_max_right _ _⟩
    · rcases he : estimateTextLines text (pyCharsPerLine current) with _ | m
      · simp only [he] at h
        exact Option.noConfusion h
      simp only [he] at h
      split_ifs at h with hfit
      · cases h
        exact ⟨le_of_not_lt hlt, le_max_left _ _⟩
      · obtain ⟨hs1, hs2⟩ := ih (current - 1) s h
        refine ⟨hs1, le_trans hs2 (max_le_max ?_ (le_refl _))⟩
        linarith

theorem fitLoop_exists (text : List (List Char)) (avail minPt : ℚ)
    (h0 : 0 < minPt) :
    ∀ (n : ℕ) (current : ℚ), minPt - 1 ≤ current → current ≤ 1280 →
      current - minPt + 1 < (n : ℚ) →
      ∃ s, fitLoop text avail minPt n current = some s ∧
        ((∀ q, minPt ≤ q → q ≤ current → ¬ FitsAt text avail q) → s = minPt) := by
  intro n
  induction n with
  | zero =>
    intro current hc1 _ hfuel
    exfalso
    rw [Nat.cast_zero] at hfuel
    linarith
  | succ n ih =>
    intro current hc1 hc2 hfuel
    rw [fitLoop]
    by_cases hlt : current < minPt
    · rw [if_pos hlt]
      exact ⟨minPt, rfl, fun _ => rfl⟩
    · rw [if_neg hlt]
      have hcur0 : 0 < current := lt_of_lt_of_le h0 (le_of_not_lt hlt)
      rw [if_neg (ne_of_gt hcur0)]
      have hcpl : pyCharsPerLine current ≠ 0 := by
        have := pyCharsPerLine_pos hcur0 hc2
        omega
      obtain ⟨m, hm⟩ := estimateTextLines_some text hcpl
      simp only [hm]
      by_cases hfit : (m : ℚ) * current * (7 / 250) ≤ avail
      · rw [if_pos hfit]
        refine ⟨current, rfl, fun hall => ?_⟩
        exact absurd ⟨m, hm, hfit⟩ (hall current (le_of_not_lt hlt) (le_refl _))
      · rw [if_neg hfit]
        obtain ⟨s, hs, hclause⟩ := ih (current - 1) (by linarith) (by linarith)
          (by push_cast at hfuel ⊢; linarith)
        refine ⟨s, hs, fun hall => ?_⟩
        exact hclause (fun q hq1 hq2 => hall q hq1 (by linarith))

theorem fitLoop_mono {t1 t2 : List (List Char)} (avail minPt : ℚ)
    (hext : ExtendsLines t1 t2) (h0 : 0 < minPt) :
    ∀ (n : ℕ) (current s1 s2 : ℚ), current ≤ 1280 →
      fitLoop t1 avail minPt n current = some s1 →
      fitLoop t2 avail minPt n current = some s2 → s2 ≤ s1 := by
  intro n
  induction n with
  | zero => intro current s1 s2 _ h1; cases h1
  | succ n ih =>
    intro current s1 s2 hc2 h1 h2
    rw [fitLoop] at h1 h2
    split_ifs at h1 h2 with hlt hz
    · cases h1
      cases h2
      exact le_refl _
    · have hcur0 : 0 < current := by
        rcases lt_or_le 0 current with h | h
        · exact h
        · exact absurd (by linarith : current < minPt) hlt
      have hcpl : pyCharsPerLine current ≠ 0 := by
        have := pyCharsPerLine_pos hcur0 hc2
        omega
      rcases he1 : estimateTextLines t1 (pyCharsPerLine current) with _ | m1
      · simp only [he1] at h1
        exact Option.noConfusion h1
      rcases he2 : estimateTextLines t2 (pyCharsPerLine current) with _ | m2
      · simp only [he2] at h2
        exact Option.noConfusion h2
      simp only [he1] at h1
      simp only [he2] at h2
      have hm12 : m1 ≤ m2 := estimate_mono hcpl hext he1 he2
      by_cases hfit2 : (m2 : ℚ) * current * (7 / 250) ≤ avail
      · -- if the longer text fits, so does the shorter: both return `current`
        have hfit1 : (m1 : ℚ) * current * (7 / 250) ≤ avail := by
          have hc' : (0 : ℚ) ≤ current * (7 / 250) := by positivity
          have hcast : (m1 : ℚ) ≤ (m2 : ℚ) := by exact_mod_cast hm12
          have hstep : (m1 : ℚ) * current * (7 / 250) ≤ (m2 : ℚ) * current * (7 / 250) := by
            calc (m1 : ℚ) * current * (7 / 250)
                = (m1 : ℚ) * (current * (7 / 250)) := by ring
              _ ≤ (m2 : ℚ) * (current * (7 / 250)) := mul_le_mul_of_nonneg_right hcast hc'
              _ = (m2 : ℚ) * current * (7 / 250) := by ring
          linarith
        rw [if_pos hfit2] at h2
        rw [if_pos hfit1] at h1
        cases h1
        cases h2
        exact le_refl _
      · rw [if_neg hfit2] at h2
        by_cases hfit1 : (m1 : ℚ) * current * (7 / 250) ≤ avail
        · -- the shorter text fits now; the longer settles at a smaller size
          rw [if_pos hfit1] at h1
          cases h1
          obtain ⟨hb1, hb2⟩ := fitLoop_bounds t2 avail minPt n (current - 1) s2 h2
          have hmax : max (current - 1) minPt ≤ current :=
            max_le (by linarith) (le_of_not_lt hlt)
          linarith
        · rw [if_neg hfit1] at h1
          exact ih (current - 1) s1 s2 (by linarith) h1 h2

/-- C7 counterexample: for `minSize = maxSize = 1281` (a pair with
`minSize ≤ maxSize`) and the one-character text `"a"`, the first iteration
computes `chars_per_line = int(80 * (16/1281)) = 0` and
`len(line) // 0` raises `ZeroDivisionError` (modeled as `none`): the loop
does not return a size at all. -/
theorem calculateFontSize_div_by_zero :
    calculateFontSize [['a']] 1 1281 1281 = none := by
  norm_num [calculateFontSize, fitLoop, estimateTextLines, lineContribution,
    pyCharsPerLine, ratTrunc, Rat.floor,
    (show ('a'.isWhitespace) = false from rfl)]

/-- Totality of the font-size selection on positive in-range sizes: the loop
returns a size in `[minPt, maxPt]`, and `minPt` exactly when nothing fits. -/
theorem fontSize_total (text : List (List Char)) (avail maxPt minPt : ℚ)
    (h0 : 0 < minPt) (h1 : minPt ≤ maxPt) (h2 : maxPt ≤ 1280) :
    ∃ s, calculateFontSize text avail maxPt minPt = some s ∧
      minPt ≤ s ∧ s ≤ maxPt ∧
      ((∀ q, minPt ≤ q → q ≤ maxPt → ¬ FitsAt text avail q) → s = minPt) := by
  have hd : (0 : ℚ) ≤ maxPt - minPt := by linarith
  have hfl : (0 : ℤ) ≤ (maxPt - minPt).floor := by
    show (0 : ℤ) ≤ ⌊maxPt - minPt⌋
    exact Int.floor_nonneg.mpr hd
  have hlt : maxPt - minPt < ((maxPt - minPt).floor : ℚ) + 1 := by
    show maxPt - minPt < (⌊maxPt - minPt⌋ : ℚ) + 1
    exact Int.lt_floor_add_one _
  have hnat : (((maxPt - minPt).floor.toNat : ℕ) : ℚ) =
      ((maxPt - minPt).floor : ℚ) := by
    exact_mod_cast Int.toNat_of_nonneg hfl
  have hcast : (((maxPt - minPt).floor.toNat + 2 : ℕ) : ℚ) =
      ((maxPt - minPt).floor : ℚ) + 2 := by
    push_cast
    rw [hnat]
  have hfuel : maxPt - minPt + 1 < (((maxPt - minPt).floor.toNat + 2 : ℕ) : ℚ) := by
    rw [hcast]
    linarith
  obtain ⟨s, hs, hclause⟩ :=
    fitLoop_exists text avail minPt h0 _ maxPt (by linarith) h2 hfuel
  obtain ⟨hb1, hb2⟩ := fitLoop_bounds text avail minPt _ maxPt s hs
  rw [max_eq_left h1] at hb2
  exact ⟨s, hs, hb1, hb2, hclause⟩

/-- C7 amended: for every text, every availableHeight and sizes with
`0 < minSize ≤ maxSize ≤ 1280` (so the estimated characters-per-line stays
positive and no division by zero is possible), `_calculate_font_size`
terminates — the loop with its budget of `⌊max-min⌋ + 2` tests already
returns — with a size `s` in `[minSize, maxSize]`, and when no candidate
size in that interval fits the available height, exactly `minSize` is
returned. -/
theorem calculateFontSize_spec (text : List (List Char)) (avail maxPt minPt : ℚ)
    (h0 : 0 < minPt) (h1 : minPt ≤ maxPt) (h2 : maxPt ≤ 1280) :
    ∃ s, calculateFontSize text avail maxPt minPt = some s ∧
      minPt ≤ s ∧ s ≤ maxPt ∧
      ((∀ q, minPt ≤ q → q ≤ maxPt → ¬ FitsAt text avail q) → s = minPt) :=
  fontSize_total text avail maxPt minPt h0 h1 h2

/-- C7 witness: with the defaults (`min = 10`, `max = 16`), height 5 and the
text `"a"`, the engine returns a size in `[10, 16]`. -/
theorem calculateFontSize_spec_witness :
    ∃ s, calculateFontSize [['a']] 5 16 10 = some s ∧
      (10 : ℚ) ≤ s ∧ s ≤ 16 ∧
      ((∀ q, (10 : ℚ) ≤ q → q ≤ 16 → ¬ FitsAt [['a']] 5 q) → s = 10) :=
  calculateFontSize_spec [['a']] 5 16 10 (by decide) (by decide) (by decide)

/-- C8 counterexample: the returned size is not monotone in the text's
length.  With height 1 and the default sizes, the 3-character text
`"\n\n\n"` (four blank lines) gets the floor size 10, while the longer
4-character text `"aaaa"` (one line) gets 16. -/
theorem calculateFontSize_not_length_monotone :
    textLength [[], [], [], []] ≤ textLength [['a', 'a', 'a', 'a']] ∧
    calculateFontSize ([[], [], [], []] : List (List Char)) 1 16 10 = some 10 ∧
    calculateFontSize [['a', 'a', 'a', 'a']] 1 16 10 = some 16 ∧
    ¬((16 : ℚ) ≤ 10) := by
  refine ⟨by decide, ?_, ?_, by decide⟩
  · norm_num [calculateFontSize, fitLoop, estimateTextLines, lineContribution,
      pyCharsPerLine, ratTrunc, Rat.floor]
  · norm_num [calculateFontSize, fitLoop, estimateTextLines, lineContribution,
      pyCharsPerLine, ratTrunc, Rat.floor,
      (show ('a'.isWhitespace) = false from rfl),
      (show Int.fdiv 4 80 = 0 from rfl)]

/-- C8 amended: for fixed availableHeight and sizes with
`0 < minSize ≤ maxSize ≤ 1280`, the returned size is monotonically
non-increasing under text extension: whenever `t2` extends `t1` (each line
of `t1` is a prefix of the corresponding line of `t2`, further lines may
follow — in particular whenever the string of `t1` is a prefix of the
string of `t2`), the size for `t2` is at most the size for `t1`. -/
theorem calculateFontSize_monotone_extend (t1 t2 : List (List Char))
    (avail maxPt minPt : ℚ) (hext : ExtendsLines t1 t2)
    (h0 : 0 < minPt) (h1 : minPt ≤ maxPt) (h2 : maxPt ≤ 1280) :
    ∃ s1 s2, calculateFontSize t1 avail maxPt minPt = some s1 ∧
      calculateFontSize t2 avail maxPt minPt = some s2 ∧ s2 ≤ s1 := by
  obtain ⟨s1, hs1, -⟩ := fontSize_total t1 avail maxPt minPt h0 h1 h2
  obtain ⟨s2, hs2, -⟩ := fontSize_total t2 avail maxPt minPt h0 h1 h2
  refine ⟨s1, s2, hs1, hs2, ?_⟩
  rw [calculateFontSize] at hs1 hs2
  exact fitLoop_mono avail minPt hext h0 _ maxPt s1 s2 h2 hs1 hs2

/-- C8 witness: `[['a'], ...]` extended to `[['a','b'], ['c']]` cannot get a
larger size (defaults, height 5). -/
theorem calculateFontSize_monotone_extend_witness :
    ∃ s1 s2, calculateFontSize [['a']] 5 16 10 = some s1 ∧
      calculateFontSize [['a', 'b'], ['c']] 5 16 10 = some s2 ∧ s2 ≤ s1 :=
  calculateFontSize_monotone_extend [['a']] [['a', 'b'], ['c']] 5 16 10
    (by constructor <;> decide) (by decide) (by decide) (by decide)

/-- C10: rendering an empty deck succeeds with zero slides.  For
`slides_data` equal to `None` or to the empty list,
`build_themed_presentation` returns a presentation with no slides — no
title slide is built — whatever the image map, the image existence check
and the theme name. -/
theorem buildThemedPresentation_empty :
    (∀ (ip : Option ℤ → Option String) (fk : String → Bool)
        (th : Option String), buildThemedPresentation none ip fk th = []) ∧
    (∀ (ip : Option ℤ → Option String) (fk : String → Bool)
        (th : Option String), buildThemedPresentation (some []) ip fk th = []) :=
  ⟨fun _ _ _ => rfl, fun _ _ _ => rfl⟩
